import Mathlib

/-!
Shallow embedding of the single-car elevator controller in `src/elevator.py`:
the domain model (directions, events, control outputs), the three-state machine
(Idle / Moving / Loading), the elevator core with its direction-selection
algorithm, and the breadth-first state-space explorer that drives the machine
with every enumerated event from every reachable configuration.

Python `assert` failures and `RuntimeError` aborts are modelled as `none`
results of `Option`-valued functions.  Python `set` becomes `Finset Int`
(floors are Python ints).  The mutable `Elevator` object becomes the record
`ElevatorData`, with its operational state held as a tag, and each mutation
returns a fresh record.  The randomized `do_it()` coin that gates the
`TimerExpired` branch of the explorer is exposed as an explicit `coin : Bool`
parameter.
-/

inductive Direction
  | NONE
  | UP
  | DOWN
deriving DecidableEq

inductive DoorMotion
  | NONE
  | OPEN
  | CLOSE
deriving DecidableEq

inductive ControlOutput
  | HoistMotor (direction : Direction)
  | StopMotor
  | DoorMotor (motion : DoorMotion)
  | SetTimer
deriving DecidableEq

inductive Event
  | DestinationFloorSelected (destination_floor : Int)
  | RequestButtonPressed (floor : Int) (direction : Direction)
  | ReachedFloor (floor : Int)
  | TimerExpired
deriving DecidableEq

inductive StateKind
  | Idle
  | Moving
  | Loading
deriving DecidableEq

/-- The elevator configuration: the `(state, current_floor, going_direction,
destinations, up_requests, down_requests)` tuple that `Elevator._as_tuple`
uses for configuration equality. -/
structure ElevatorData where
  state : StateKind
  current_floor : Int
  going_direction : Direction
  destinations : Finset Int
  up_requests : Finset Int
  down_requests : Finset Int
deriving DecidableEq

def MIN_FLOOR : Int := 1

def MAX_FLOOR : Int := 5

/-- Number of floors in the set at or above the current floor
(`Elevator._count_higher_floors`, which uses `floor >= current_floor`). -/
def count_higher_floors (cur : Int) (s : Finset Int) : Nat :=
  (s.filter fun f => cur ≤ f).card

/-- Number of floors in the set at or below the current floor
(`Elevator._count_lower_floors`, which uses `floor <= current_floor`). -/
def count_lower_floors (cur : Int) (s : Finset Int) : Nat :=
  (s.filter fun f => f ≤ cur).card

/-- Majority vote of `Elevator._get_direction_with_floor_set`:
UP when the at-or-above count exceeds `len(floor_set) // 2`, else DOWN. -/
def get_direction_with_floor_set (cur : Int) (s : Finset Int) : Direction :=
  if count_higher_floors cur s > s.card / 2 then .UP else .DOWN

/-- The direction recomputed by `Elevator._update_direction`. -/
def next_direction (e : ElevatorData) : Direction :=
  if e.destinations = ∅ ∧ e.up_requests = ∅ ∧ e.down_requests = ∅ then .NONE
  else if e.current_floor = MIN_FLOOR then .UP
  else if e.current_floor = MAX_FLOOR then .DOWN
  else if e.going_direction = .NONE then
    if e.destinations ≠ ∅ then get_direction_with_floor_set e.current_floor e.destinations
    else get_direction_with_floor_set e.current_floor (e.up_requests ∪ e.down_requests)
  else if e.going_direction = .UP then
    if 0 < count_higher_floors e.current_floor e.destinations then .UP
    else if 0 < count_higher_floors e.current_floor (e.up_requests ∪ e.down_requests) then .UP
    else .DOWN
  else
    if 0 < count_lower_floors e.current_floor e.destinations then .DOWN
    else if 0 < count_lower_floors e.current_floor (e.up_requests ∪ e.down_requests) then .DOWN
    else .UP

/-- `Elevator._update_direction`: store the recomputed direction. -/
def update_direction (e : ElevatorData) : ElevatorData :=
  { e with going_direction := next_direction e }

/-- `Elevator.reach_floor`: asserts the floor is in range, the elevator is
moving, and the move is a single floor; updates floor, removes a due drop-off
and a direction-consistent pickup, recomputes direction; the `Bool` is the
"need to open door" result (whether any removal was due). -/
def reach_floor (e : ElevatorData) (floor : Int) : Option (ElevatorData × Bool) :=
  if MIN_FLOOR ≤ floor ∧ floor ≤ MAX_FLOOR then
    if e.going_direction ≠ .NONE then
      if (e.current_floor - floor).natAbs = 1 then
        some (update_direction
          { e with
            current_floor := floor
            destinations := e.destinations.erase floor
            up_requests :=
              if e.going_direction = .UP then e.up_requests.erase floor else e.up_requests
            down_requests :=
              if e.going_direction = .DOWN then e.down_requests.erase floor else e.down_requests },
          decide (floor ∈ e.destinations)
            || (decide (floor ∈ e.up_requests) && decide (e.going_direction = .UP))
            || (decide (floor ∈ e.down_requests) && decide (e.going_direction = .DOWN)))
      else none
    else none
  else none

/-- `Elevator.close_door`: recompute direction; the `Bool` is whether the
elevator needs to move again (recomputed direction is not NONE). -/
def close_door (e : ElevatorData) : ElevatorData × Bool :=
  (update_direction e, decide ((update_direction e).going_direction ≠ .NONE))

/-- `Elevator.receive_request`: asserts the request is not a down-request at
the bottom floor nor an up-request at the top floor; adds the floor to the
up-request set exactly when the direction is UP and to the down-request set
otherwise; recomputes direction. -/
def receive_request (e : ElevatorData) (floor : Int) (direction : Direction) :
    Option ElevatorData :=
  if floor = MIN_FLOOR ∧ direction = .DOWN then none
  else if floor = MAX_FLOOR ∧ direction = .UP then none
  else if direction = .UP then
    some (update_direction { e with up_requests := insert floor e.up_requests })
  else
    some (update_direction { e with down_requests := insert floor e.down_requests })

/-- `Elevator.receive_destination`: record the destination, recompute. -/
def receive_destination (e : ElevatorData) (floor : Int) : ElevatorData :=
  update_direction { e with destinations := insert floor e.destinations }

/-- Dispatch of `State.handle_event` over the three state classes.  The Idle
handler first runs the two entry assertions (`destinations` empty and
direction NONE); an event not recognized by the current state is the fatal
"Unsupported event" error, modelled as `none`. -/
def state_handle_event (e : ElevatorData) (ev : Event) :
    Option (ElevatorData × List ControlOutput) :=
  match e.state with
  | .Idle =>
    if e.destinations = ∅ ∧ e.going_direction = .NONE then
      match ev with
      | .RequestButtonPressed floor direction =>
        if floor = e.current_floor then
          some ({ e with state := .Loading }, [.SetTimer])
        else
          (receive_request e floor direction).map fun e1 =>
            ({ e1 with state := .Moving }, [.HoistMotor e1.going_direction])
      | .DestinationFloorSelected floor =>
        if floor = e.current_floor then
          some ({ e with state := .Loading }, [.DoorMotor .OPEN, .SetTimer])
        else
          some ({ receive_destination e floor with state := .Moving },
            [.HoistMotor (receive_destination e floor).going_direction])
      | _ => none
    else none
  | .Moving =>
    match ev with
    | .ReachedFloor floor =>
      (reach_floor e floor).map fun p =>
        if p.2 then
          ({ p.1 with state := .Loading }, [.StopMotor, .DoorMotor .OPEN, .SetTimer])
        else
          ({ p.1 with state := .Moving }, [.HoistMotor p.1.going_direction])
    | .DestinationFloorSelected floor =>
      some ({ receive_destination e floor with state := .Moving },
        [.HoistMotor (receive_destination e floor).going_direction])
    | .RequestButtonPressed floor direction =>
      (receive_request e floor direction).map fun e1 =>
        ({ e1 with state := .Moving }, [.HoistMotor e1.going_direction])
    | .TimerExpired => none
  | .Loading =>
    match ev with
    | .DestinationFloorSelected floor =>
      if floor = e.current_floor then
        some ({ e with state := .Loading }, [])
      else
        some ({ receive_destination e floor with state := .Loading }, [])
    | .RequestButtonPressed floor direction =>
      (receive_request e floor direction).map fun e1 =>
        ({ e1 with state := .Loading }, [])
    | .TimerExpired =>
      if (close_door e).2 then
        some ({ (close_door e).1 with state := .Moving },
          [.DoorMotor .CLOSE, .HoistMotor (close_door e).1.going_direction])
      else
        some ({ (close_door e).1 with state := .Idle }, [.DoorMotor .CLOSE])
    | .ReachedFloor _ => none

/-- Validity of a single control output as enforced by
`ElevatorControl.handle_control_output`: a `HoistMotor` command never carries
direction NONE and a `DoorMotor` command never carries motion NONE. -/
def control_output_ok (c : ControlOutput) : Bool :=
  match c with
  | .HoistMotor d => decide (d ≠ Direction.NONE)
  | .DoorMotor m => decide (m ≠ DoorMotion.NONE)
  | .StopMotor => true
  | .SetTimer => true

/-- `Elevator.handle_event`: run the current state handler, then forward the
outputs to the control sink, whose assertions are folded into success. -/
def handle_event (e : ElevatorData) (ev : Event) :
    Option (ElevatorData × List ControlOutput) :=
  match state_handle_event e ev with
  | some (e1, outs) => if outs.all control_output_ok then some (e1, outs) else none
  | none => none

/-- The explorer presses every destination button `range(MIN_FLOOR, MAX_FLOOR + 1)`. -/
def destination_events : List Event :=
  ([1, 2, 3, 4, 5] : List Int).map .DestinationFloorSelected

/-- The explorer presses every up button `range(MIN_FLOOR, MAX_FLOOR)`. -/
def up_request_events : List Event :=
  ([1, 2, 3, 4] : List Int).map fun f => .RequestButtonPressed f .UP

/-- The explorer presses every down button `range(MIN_FLOOR + 1, MAX_FLOOR + 1)`. -/
def down_request_events : List Event :=
  ([2, 3, 4, 5] : List Int).map fun f => .RequestButtonPressed f .DOWN

/-- The events enumerated by `Simulator.simulate.get_next_elevator` for one
configuration: all destination buttons, all up and down buttons, one
`ReachedFloor` step in the travel direction if Moving, and — only when the
`do_it()` coin lands on 0, exposed here as `coin` — one `TimerExpired` if
Loading. -/
def next_events (coin : Bool) (e : ElevatorData) : List Event :=
  destination_events ++ up_request_events ++ down_request_events
    ++ (if e.state = .Moving ∧ e.going_direction = .UP then
          [.ReachedFloor (e.current_floor + 1)] else [])
    ++ (if e.state = .Moving ∧ e.going_direction = .DOWN then
          [.ReachedFloor (e.current_floor - 1)] else [])
    ++ (if e.state = .Loading ∧ coin then [.TimerExpired] else [])

/-- The successor configurations produced by `get_next_elevator`: each
enumerated event applied to an independent copy, keeping the successful
results. -/
def next_elevators (coin : Bool) (e : ElevatorData) : List ElevatorData :=
  (next_events coin e).filterMap fun ev => (handle_event e ev).map Prod.fst

/-- The canonical start configuration `Elevator(1, control)`: floor 1, Idle,
direction NONE, all request and destination sets empty. -/
def startElevator : ElevatorData :=
  { state := .Idle
    current_floor := 1
    going_direction := .NONE
    destinations := ∅
    up_requests := ∅
    down_requests := ∅ }

/-- Configurations reachable from the canonical start by finite sequences of
legal events, as enumerated by the explorer (with the `TimerExpired` branch
always available, the superset of every randomized run). -/
inductive Reachable : ElevatorData → Prop
  | start : Reachable startElevator
  | step {e e1 : ElevatorData} : Reachable e → e1 ∈ next_elevators true e → Reachable e1

/-- All three pending-work sets are empty. -/
abbrev allEmpty (e : ElevatorData) : Prop :=
  e.destinations = ∅ ∧ e.up_requests = ∅ ∧ e.down_requests = ∅

/-- The state-independent part of the inductive invariant: the floor is in
range, the direction never points past an end of the shaft, the direction is
NONE exactly when no work is pending, and no boundary-violating pickup is
recorded. -/
abbrev DataInv (e : ElevatorData) : Prop :=
  (1 ≤ e.current_floor ∧ e.current_floor ≤ 5)
  ∧ (e.current_floor = 1 → e.going_direction ≠ .DOWN)
  ∧ (e.current_floor = 5 → e.going_direction ≠ .UP)
  ∧ (e.going_direction = .NONE ↔ allEmpty e)
  ∧ (1 : Int) ∉ e.down_requests
  ∧ (5 : Int) ∉ e.up_requests

/-- The full inductive invariant: the data invariant, the Idle-closure
property, and that a Moving elevator has a travel direction. -/
abbrev ElevInv (e : ElevatorData) : Prop :=
  DataInv e
  ∧ (e.state = .Idle → e.going_direction = .NONE ∧ allEmpty e)
  ∧ (e.state = .Moving → e.going_direction ≠ .NONE)

/-! ### Basic lemmas about the direction recomputation -/

@[simp] theorem update_direction_state (e : ElevatorData) :
    (update_direction e).state = e.state := rfl

@[simp] theorem update_direction_current_floor (e : ElevatorData) :
    (update_direction e).current_floor = e.current_floor := rfl

@[simp] theorem update_direction_destinations (e : ElevatorData) :
    (update_direction e).destinations = e.destinations := rfl

@[simp] theorem update_direction_up_requests (e : ElevatorData) :
    (update_direction e).up_requests = e.up_requests := rfl

@[simp] theorem update_direction_down_requests (e : ElevatorData) :
    (update_direction e).down_requests = e.down_requests := rfl

@[simp] theorem update_direction_going_direction (e : ElevatorData) :
    (update_direction e).going_direction = next_direction e := rfl

theorem get_direction_ne_none (cur : Int) (s : Finset Int) :
    get_direction_with_floor_set cur s ≠ .NONE := by
  unfold get_direction_with_floor_set
  split <;> simp

theorem next_direction_eq_none_iff (e : ElevatorData) :
    next_direction e = .NONE ↔ allEmpty e := by
  unfold next_direction
  have h1 := get_direction_ne_none e.current_floor e.destinations
  have h2 := get_direction_ne_none e.current_floor (e.up_requests ∪ e.down_requests)
  split_ifs <;> simp_all [allEmpty]

theorem next_direction_at_min (e : ElevatorData) (h : e.current_floor = 1) :
    next_direction e ≠ .DOWN := by
  unfold next_direction
  split_ifs <;> simp_all [MIN_FLOOR, MAX_FLOOR]

theorem next_direction_at_max (e : ElevatorData) (h : e.current_floor = 5) :
    next_direction e ≠ .UP := by
  unfold next_direction
  split_ifs <;> simp_all [MIN_FLOOR, MAX_FLOOR]

theorem next_direction_ne_none (e : ElevatorData) (h : ¬allEmpty e) :
    next_direction e ≠ .NONE := by
  intro hn
  exact h ((next_direction_eq_none_iff e).mp hn)

/-- After a direction recomputation the data invariant holds, given only the
floor-range bound and the boundary-pickup facts of the recomputed record. -/
theorem dataInv_update_direction (e : ElevatorData)
    (hfl : 1 ≤ e.current_floor ∧ e.current_floor ≤ 5)
    (hdw : (1 : Int) ∉ e.down_requests) (hus : (5 : Int) ∉ e.up_requests) :
    DataInv (update_direction e) := by
  refine ⟨by simpa using hfl, ?_, ?_, ?_, by simpa using hdw, by simpa using hus⟩
  · intro h1
    simp only [update_direction_current_floor] at h1
    simpa using next_direction_at_min e h1
  · intro h5
    simp only [update_direction_current_floor] at h5
    simpa using next_direction_at_max e h5
  · simpa [allEmpty] using next_direction_eq_none_iff e

theorem dataInv_receive_destination (e : ElevatorData) (f : Int)
    (hfl : 1 ≤ e.current_floor ∧ e.current_floor ≤ 5)
    (hdw : (1 : Int) ∉ e.down_requests) (hus : (5 : Int) ∉ e.up_requests) :
    DataInv (receive_destination e f)
      ∧ (receive_destination e f).going_direction ≠ .NONE := by
  constructor
  · exact dataInv_update_direction _ (by simpa using hfl) (by simpa using hdw)
      (by simpa using hus)
  · simp only [receive_destination, update_direction_going_direction]
    exact next_direction_ne_none _ (by simp [allEmpty])

theorem dataInv_receive_request (e e1 : ElevatorData) (f : Int) (d : Direction)
    (hfl : 1 ≤ e.current_floor ∧ e.current_floor ≤ 5)
    (hdw : (1 : Int) ∉ e.down_requests) (hus : (5 : Int) ∉ e.up_requests)
    (hd : d ≠ .NONE) (h : receive_request e f d = some e1) :
    DataInv e1 ∧ e1.going_direction ≠ .NONE := by
  unfold receive_request at h
  split_ifs at h with hg1 hg2 hup
  · -- direction UP, so the guard gives f ≠ 5
    have hf5 : f ≠ 5 := by
      intro hf
      exact hg2 ⟨by simp [hf, MAX_FLOOR], hup⟩
    obtain rfl : update_direction { e with up_requests := insert f e.up_requests } = e1 :=
      Option.some.inj h
    refine ⟨dataInv_update_direction _ (by simpa using hfl) (by simpa using hdw) ?_, ?_⟩
    · simp only [Finset.mem_insert]
      rintro (h5 | h5)
      · exact hf5 h5.symm
      · exact hus h5
    · simp only [update_direction_going_direction]
      exact next_direction_ne_none _ (by simp [allEmpty])
  · -- direction is not UP and not NONE, hence DOWN, so the guard gives f ≠ 1
    have hdown : d = .DOWN := by
      cases d <;> simp_all
    have hf1 : f ≠ 1 := by
      intro hf
      exact hg1 ⟨by simp [hf, MIN_FLOOR], hdown⟩
    obtain rfl : update_direction { e with down_requests := insert f e.down_requests } = e1 :=
      Option.some.inj h
    refine ⟨dataInv_update_direction _ (by simpa using hfl) ?_ (by simpa using hus), ?_⟩
    · simp only [Finset.mem_insert]
      rintro (h1 | h1)
      · exact hf1 h1.symm
      · exact hdw h1
    · simp only [update_direction_going_direction]
      exact next_direction_ne_none _ (by simp [allEmpty])


theorem dataInv_reach_floor (e e1 : ElevatorData) (f : Int) (opened : Bool)
    (hdw : (1 : Int) ∉ e.down_requests) (hus : (5 : Int) ∉ e.up_requests)
    (h : reach_floor e f = some (e1, opened)) :
    DataInv e1 := by
  unfold reach_floor at h
  split_ifs at h with hrange hdir hstep <;>
    simp only [Option.some_inj, Prod.mk.injEq] at h <;>
    obtain ⟨rfl, -⟩ := h <;>
    refine dataInv_update_direction _ (by simpa [MIN_FLOOR, MAX_FLOOR] using hrange) ?_ ?_ <;>
    intro hm <;>
    first
      | exact hdw hm
      | exact hdw (Finset.mem_of_mem_erase hm)
      | exact hus hm
      | exact hus (Finset.mem_of_mem_erase hm)

/-- When `reach_floor` reports no door opening, no removal happened: the three
pending-work sets are unchanged. -/
theorem reach_floor_not_opened (e e1 : ElevatorData) (f : Int)
    (h : reach_floor e f = some (e1, false)) :
    e1.destinations = e.destinations ∧ e1.up_requests = e.up_requests
      ∧ e1.down_requests = e.down_requests := by
  unfold reach_floor at h
  split_ifs at h with hrange hdir hstep <;>
    simp only [Option.some_inj, Prod.mk.injEq, Bool.or_eq_false_iff,
      Bool.and_eq_false_iff, decide_eq_false_iff_not] at h <;>
    obtain ⟨rfl, ⟨hnd, hnu⟩, hnw⟩ := h <;>
    refine ⟨Finset.erase_eq_of_not_mem hnd, ?_, ?_⟩ <;>
    first
      | rfl
      | (apply Finset.erase_eq_of_not_mem; tauto)

theorem dataInv_set_state (x : ElevatorData) (k : StateKind) :
    DataInv { x with state := k } ↔ DataInv x := Iff.rfl

theorem handle_event_eq_some (e : ElevatorData) (ev : Event)
    (p : ElevatorData × List ControlOutput) (h : handle_event e ev = some p) :
    state_handle_event e ev = some p := by
  unfold handle_event at h
  cases hse : state_handle_event e ev with
  | none => rw [hse] at h; exact absurd h (by simp)
  | some q =>
    obtain ⟨q1, q2⟩ := q
    rw [hse] at h
    dsimp only at h
    split_ifs at h
    exact h

/-- The inductive invariant is preserved by every successful event dispatch
whose request events carry a travel direction (the only requests the explorer
enumerates). -/
theorem handle_event_preserves_inv (e e1 : ElevatorData) (out : List ControlOutput)
    (ev : Event) (hInv : ElevInv e)
    (hreq : ∀ f d, ev = .RequestButtonPressed f d → d ≠ .NONE)
    (h : handle_event e ev = some (e1, out)) :
    ElevInv e1 := by
  have hse := handle_event_eq_some e ev (e1, out) h
  obtain ⟨⟨hfl, hmin, hmax, hiff, hdw, hus⟩, hidle, hmov⟩ := hInv
  obtain ⟨st, cur, dir, ds, us, dw⟩ := e
  simp only at hfl hmin hmax hiff hdw hus hidle hmov
  cases st with
  | Idle =>
    obtain ⟨hdirn, hde, hue, hwe⟩ :
        dir = .NONE ∧ ds = ∅ ∧ us = ∅ ∧ dw = ∅ := by
      obtain ⟨h1, h2, h3, h4⟩ := hidle rfl
      exact ⟨h1, h2, h3, h4⟩
    subst hdirn hde hue hwe
    cases ev with
    | DestinationFloorSelected f =>
      simp only [state_handle_event] at hse
      split_ifs at hse with hf <;>
        simp only [Option.some_inj, Prod.mk.injEq] at hse <;>
        obtain ⟨rfl, -⟩ := hse
      · exact ⟨⟨hfl, by simp, by simp, by simp [allEmpty], by simp, by simp⟩,
          by simp, by simp⟩
      · obtain ⟨hd1, hd2⟩ := dataInv_receive_destination ⟨.Idle, cur, .NONE, ∅, ∅, ∅⟩ f
          hfl (by simp) (by simp)
        exact ⟨(dataInv_set_state _ _).mpr hd1, by simp, fun _ => hd2⟩
    | RequestButtonPressed f d =>
      have hd : d ≠ .NONE := hreq f d rfl
      simp only [state_handle_event] at hse
      split_ifs at hse with hf
      · simp only [Option.some_inj, Prod.mk.injEq] at hse
        obtain ⟨rfl, -⟩ := hse
        exact ⟨⟨hfl, by simp, by simp, by simp [allEmpty], by simp, by simp⟩,
          by simp, by simp⟩
      · obtain ⟨e2, hrr, hmap⟩ := Option.map_eq_some'.mp hse
        simp only [Prod.mk.injEq] at hmap
        obtain ⟨rfl, -⟩ := hmap
        obtain ⟨hd1, hd2⟩ := dataInv_receive_request ⟨.Idle, cur, .NONE, ∅, ∅, ∅⟩ e2 f d
          hfl (by simp) (by simp) hd hrr
        exact ⟨(dataInv_set_state _ _).mpr hd1, by simp, fun _ => hd2⟩
    | ReachedFloor f => exact absurd hse (by simp [state_handle_event])
    | TimerExpired => exact absurd hse (by simp [state_handle_event])
  | Moving =>
    have hdirm : dir ≠ .NONE := hmov rfl
    have hne : ¬allEmpty (⟨.Moving, cur, dir, ds, us, dw⟩ : ElevatorData) := by
      intro ha
      exact hdirm (hiff.mpr ha)
    cases ev with
    | ReachedFloor f =>
      simp only [state_handle_event] at hse
      obtain ⟨⟨e2, opened⟩, hrf, hmap⟩ := Option.map_eq_some'.mp hse
      have hd1 := dataInv_reach_floor _ e2 f opened hdw hus hrf
      cases opened with
      | true =>
        simp only [Option.some_inj, Prod.mk.injEq, if_true] at hmap
        obtain ⟨rfl, -⟩ := hmap
        exact ⟨(dataInv_set_state _ _).mpr hd1, by simp, by simp⟩
      | false =>
        simp only [Option.some_inj, Prod.mk.injEq, if_false] at hmap
        obtain ⟨rfl, -⟩ := hmap
        have hsets := reach_floor_not_opened _ e2 f hrf
        have hne2 : ¬allEmpty e2 := by
          intro ha
          exact hne ⟨hsets.1 ▸ ha.1, hsets.2.1 ▸ ha.2.1, hsets.2.2 ▸ ha.2.2⟩
        have hd2 : e2.going_direction ≠ .NONE := by
          intro hn
          exact hne2 (hd1.2.2.2.1.mp hn)
        exact ⟨(dataInv_set_state _ _).mpr hd1, by simp, fun _ => hd2⟩
    | DestinationFloorSelected f =>
      simp only [state_handle_event, Option.some_inj, Prod.mk.injEq] at hse
      obtain ⟨rfl, -⟩ := hse
      obtain ⟨hd1, hd2⟩ := dataInv_receive_destination ⟨.Moving, cur, dir, ds, us, dw⟩ f
        hfl hdw hus
      exact ⟨(dataInv_set_state _ _).mpr hd1, by simp, fun _ => hd2⟩
    | RequestButtonPressed f d =>
      have hd : d ≠ .NONE := hreq f d rfl
      simp only [state_handle_event] at hse
      obtain ⟨e2, hrr, hmap⟩ := Option.map_eq_some'.mp hse
      simp only [Prod.mk.injEq] at hmap
      obtain ⟨rfl, -⟩ := hmap
      obtain ⟨hd1, hd2⟩ := dataInv_receive_request ⟨.Moving, cur, dir, ds, us, dw⟩ e2 f d
        hfl hdw hus hd hrr
      exact ⟨(dataInv_set_state _ _).mpr hd1, by simp, fun _ => hd2⟩
    | TimerExpired => exact absurd hse (by simp [state_handle_event])
  | Loading =>
    cases ev with
    | DestinationFloorSelected f =>
      simp only [state_handle_event] at hse
      split_ifs at hse with hf <;>
        simp only [Option.some_inj, Prod.mk.injEq] at hse <;>
        obtain ⟨rfl, -⟩ := hse
      · exact ⟨⟨hfl, hmin, hmax, hiff, hdw, hus⟩, by simp, by simp⟩
      · obtain ⟨hd1, -⟩ := dataInv_receive_destination ⟨.Loading, cur, dir, ds, us, dw⟩ f
          hfl hdw hus
        exact ⟨(dataInv_set_state _ _).mpr hd1, by simp, by simp⟩
    | RequestButtonPressed f d =>
      have hd : d ≠ .NONE := hreq f d rfl
      simp only [state_handle_event] at hse
      obtain ⟨e2, hrr, hmap⟩ := Option.map_eq_some'.mp hse
      simp only [Prod.mk.injEq] at hmap
      obtain ⟨rfl, -⟩ := hmap
      obtain ⟨hd1, -⟩ := dataInv_receive_request ⟨.Loading, cur, dir, ds, us, dw⟩ e2 f d
        hfl hdw hus hd hrr
      exact ⟨(dataInv_set_state _ _).mpr hd1, by simp, by simp⟩
    | TimerExpired =>
      simp only [state_handle_event, close_door] at hse
      split_ifs at hse with hmove <;>
        simp only [Option.some_inj, Prod.mk.injEq] at hse <;>
        obtain ⟨rfl, -⟩ := hse
      · have hd1 := dataInv_update_direction ⟨.Loading, cur, dir, ds, us, dw⟩ hfl hdw hus
        have hd2 : (update_direction (⟨.Loading, cur, dir, ds, us, dw⟩ : ElevatorData)).going_direction ≠ .NONE :=
          of_decide_eq_true hmove
        exact ⟨(dataInv_set_state _ _).mpr hd1, by simp, fun _ => hd2⟩
      · have hd1 := dataInv_update_direction ⟨.Loading, cur, dir, ds, us, dw⟩ hfl hdw hus
        have hd2 : (update_direction (⟨.Loading, cur, dir, ds, us, dw⟩ : ElevatorData)).going_direction = .NONE := by
          by_contra hc
          exact hmove (decide_eq_true hc)
        have hae : allEmpty (update_direction (⟨.Loading, cur, dir, ds, us, dw⟩ : ElevatorData)) := by
          have := (next_direction_eq_none_iff ⟨.Loading, cur, dir, ds, us, dw⟩).mp
            (by simpa using hd2)
          simpa [allEmpty] using this
        exact ⟨(dataInv_set_state _ _).mpr hd1, fun _ => ⟨hd2, hae⟩, by simp⟩
    | ReachedFloor f => exact absurd hse (by simp [state_handle_event])

/-- Every request event the explorer enumerates carries a travel direction. -/
theorem mem_next_events_request_dir (coin : Bool) (e : ElevatorData) (f : Int)
    (d : Direction) (h : Event.RequestButtonPressed f d ∈ next_events coin e) :
    d ≠ .NONE := by
  unfold next_events at h
  simp only [List.mem_append] at h
  rcases h with ((((h | h) | h) | h) | h) | h
  · simp [destination_events] at h
  · simp only [up_request_events, List.mem_map] at h
    obtain ⟨a, -, ha⟩ := h
    injection ha with h1 h2
    subst h2
    simp
  · simp only [down_request_events, List.mem_map] at h
    obtain ⟨a, -, ha⟩ := h
    injection ha with h1 h2
    subst h2
    simp
  · split_ifs at h <;> simp at h
  · split_ifs at h <;> simp at h
  · split_ifs at h <;> simp at h

/-- Every reachable configuration satisfies the inductive invariant. -/
theorem reachable_inv (e : ElevatorData) (h : Reachable e) : ElevInv e := by
  induction h with
  | start => decide
  | step hr hmem ih =>
    obtain ⟨ev, hev, hmap⟩ := List.mem_filterMap.mp hmem
    obtain ⟨⟨e2, out⟩, hhe, heq⟩ := Option.map_eq_some'.mp hmap
    cases heq
    exact handle_event_preserves_inv _ _ _ _ ih
      (fun f d hd => mem_next_events_request_dir true _ f d (hd ▸ hev)) hhe

/-- Pressing the destination button of the current floor succeeds in every
configuration satisfying the invariant, whatever the state. -/
theorem dest_current_floor_succeeds (e : ElevatorData) (hInv : ElevInv e) :
    (handle_event e (.DestinationFloorSelected e.current_floor)).isSome = true := by
  obtain ⟨⟨hfl, hmin, hmax, hiff, hdw, hus⟩, hidle, hmov⟩ := hInv
  obtain ⟨st, cur, dir, ds, us, dw⟩ := e
  simp only at hfl hmin hmax hiff hdw hus hidle hmov
  cases st with
  | Idle =>
    obtain ⟨h1, h2, h3, h4⟩ := hidle rfl
    subst h1 h2 h3 h4
    simp [handle_event, state_handle_event, control_output_ok]
  | Moving =>
    have hne : (receive_destination ⟨.Moving, cur, dir, ds, us, dw⟩ cur).going_direction
        ≠ .NONE :=
      (dataInv_receive_destination ⟨.Moving, cur, dir, ds, us, dw⟩ cur hfl hdw hus).2
    simp [handle_event, state_handle_event, control_output_ok, hne]
  | Loading =>
    simp [handle_event, state_handle_event, control_output_ok]

/-- On every invariant-satisfying configuration the explorer's successor
enumeration is nonempty, whichever way the randomized coin lands. -/
theorem next_elevators_ne_nil (coin : Bool) (e : ElevatorData) (hInv : ElevInv e) :
    next_elevators coin e ≠ [] := by
  obtain ⟨⟨e2, out⟩, hp⟩ :=
    Option.isSome_iff_exists.mp (dest_current_floor_succeeds e hInv)
  have hcur : e.current_floor = 1 ∨ e.current_floor = 2 ∨ e.current_floor = 3
      ∨ e.current_floor = 4 ∨ e.current_floor = 5 := by
    obtain ⟨⟨hfl, -⟩, -⟩ := hInv
    omega
  have hmem : Event.DestinationFloorSelected e.current_floor ∈ next_events coin e := by
    unfold next_events destination_events
    simp only [List.mem_append, List.mem_map]
    rcases hcur with h | h | h | h | h <;>
      exact Or.inl (Or.inl (Or.inl (Or.inl (Or.inl ⟨e.current_floor, by rw [h]; simp, rfl⟩))))
  have hmem2 : e2 ∈ next_elevators coin e :=
    List.mem_filterMap.mpr ⟨_, hmem, by rw [hp]; rfl⟩
  exact List.ne_nil_of_mem hmem2

theorem count_higher_pos_iff (cur : Int) (s : Finset Int) :
    0 < count_higher_floors cur s ↔ ∃ f ∈ s, cur ≤ f := by
  unfold count_higher_floors
  rw [Finset.card_pos, Finset.filter_nonempty_iff]

theorem count_lower_pos_iff (cur : Int) (s : Finset Int) :
    0 < count_lower_floors cur s ↔ ∃ f ∈ s, f ≤ cur := by
  unfold count_lower_floors
  rw [Finset.card_pos, Finset.filter_nonempty_iff]

/-- The majority test `count > card / 2` under truncating division is the
"more than half" test `2 * count > card`. -/
theorem get_direction_majority (cur : Int) (s : Finset Int) :
    get_direction_with_floor_set cur s
      = (if 2 * count_higher_floors cur s > s.card then Direction.UP else .DOWN) := by
  unfold get_direction_with_floor_set
  split_ifs with h1 h2 <;> first | rfl | (exfalso; omega)

/-- Characterization of the recomputation when already moving UP at an
interior floor with pending work: stay UP exactly when some pending floor is
at or above the current one, reverse exactly when all are strictly below. -/
theorem next_direction_moving_up (e : ElevatorData) (hdir : e.going_direction = .UP)
    (h1 : e.current_floor ≠ 1) (h5 : e.current_floor ≠ 5) (hne : ¬allEmpty e) :
    (next_direction e = .UP
      ↔ ∃ f ∈ e.destinations ∪ e.up_requests ∪ e.down_requests, e.current_floor ≤ f)
    ∧ (next_direction e = .DOWN
      ↔ ∀ f ∈ e.destinations ∪ e.up_requests ∪ e.down_requests, f < e.current_floor) := by
  have hcd := count_higher_pos_iff e.current_floor e.destinations
  have hcu := count_higher_pos_iff e.current_floor (e.up_requests ∪ e.down_requests)
  unfold next_direction
  rw [if_neg hne, if_neg (by simpa [MIN_FLOOR] using h1),
    if_neg (by simpa [MAX_FLOOR] using h5), if_neg (by simp [hdir]), if_pos hdir]
  split_ifs with hd hu
  · have hex : ∃ f ∈ e.destinations ∪ e.up_requests ∪ e.down_requests,
        e.current_floor ≤ f := by
      obtain ⟨f, hf, hle⟩ := hcd.mp hd
      exact ⟨f, by simp [Finset.mem_union, hf], hle⟩
    refine ⟨⟨fun _ => hex, fun _ => rfl⟩, ⟨fun hc => absurd hc (by simp), fun hall => ?_⟩⟩
    obtain ⟨f, hf, hle⟩ := hex
    exact absurd hle (not_le.mpr (hall f hf))
  · have hex : ∃ f ∈ e.destinations ∪ e.up_requests ∪ e.down_requests,
        e.current_floor ≤ f := by
      obtain ⟨f, hf, hle⟩ := hcu.mp hu
      simp only [Finset.mem_union] at hf
      exact ⟨f, by simp [Finset.mem_union]; tauto, hle⟩
    refine ⟨⟨fun _ => hex, fun _ => rfl⟩, ⟨fun hc => absurd hc (by simp), fun hall => ?_⟩⟩
    obtain ⟨f, hf, hle⟩ := hex
    exact absurd hle (not_le.mpr (hall f hf))
  · have hnex : ∀ f ∈ e.destinations ∪ e.up_requests ∪ e.down_requests,
        f < e.current_floor := by
      intro f hf
      by_contra hc
      have hle : e.current_floor ≤ f := not_lt.mp hc
      simp only [Finset.mem_union] at hf
      rcases hf with (hf | hf) | hf
      · exact hd (hcd.mpr ⟨f, hf, hle⟩)
      · exact hu (hcu.mpr ⟨f, Finset.mem_union_left _ hf, hle⟩)
      · exact hu (hcu.mpr ⟨f, Finset.mem_union_right _ hf, hle⟩)
    refine ⟨⟨fun hc => absurd hc (by simp), fun hex => ?_⟩, ⟨fun _ => hnex, fun _ => rfl⟩⟩
    obtain ⟨f, hf, hle⟩ := hex
    exact absurd hle (not_le.mpr (hnex f hf))

/-- Symmetric characterization when already moving DOWN at an interior floor:
stay DOWN exactly when some pending floor is at or below the current one. -/
theorem next_direction_moving_down (e : ElevatorData) (hdir : e.going_direction = .DOWN)
    (h1 : e.current_floor ≠ 1) (h5 : e.current_floor ≠ 5) (hne : ¬allEmpty e) :
    (next_direction e = .DOWN
      ↔ ∃ f ∈ e.destinations ∪ e.up_requests ∪ e.down_requests, f ≤ e.current_floor)
    ∧ (next_direction e = .UP
      ↔ ∀ f ∈ e.destinations ∪ e.up_requests ∪ e.down_requests, e.current_floor < f) := by
  have hcd := count_lower_pos_iff e.current_floor e.destinations
  have hcu := count_lower_pos_iff e.current_floor (e.up_requests ∪ e.down_requests)
  unfold next_direction
  rw [if_neg hne, if_neg (by simpa [MIN_FLOOR] using h1),
    if_neg (by simpa [MAX_FLOOR] using h5), if_neg (by simp [hdir]),
    if_neg (by simp [hdir])]
  split_ifs with hd hu
  · have hex : ∃ f ∈ e.destinations ∪ e.up_requests ∪ e.down_requests,
        f ≤ e.current_floor := by
      obtain ⟨f, hf, hle⟩ := hcd.mp hd
      exact ⟨f, by simp [Finset.mem_union, hf], hle⟩
    refine ⟨⟨fun _ => hex, fun _ => rfl⟩, ⟨fun hc => absurd hc (by simp), fun hall => ?_⟩⟩
    obtain ⟨f, hf, hle⟩ := hex
    exact absurd hle (not_le.mpr (hall f hf))
  · have hex : ∃ f ∈ e.destinations ∪ e.up_requests ∪ e.down_requests,
        f ≤ e.current_floor := by
      obtain ⟨f, hf, hle⟩ := hcu.mp hu
      simp only [Finset.mem_union] at hf
      exact ⟨f, by simp [Finset.mem_union]; tauto, hle⟩
    refine ⟨⟨fun _ => hex, fun _ => rfl⟩, ⟨fun hc => absurd hc (by simp), fun hall => ?_⟩⟩
    obtain ⟨f, hf, hle⟩ := hex
    exact absurd hle (not_le.mpr (hall f hf))
  · have hnex : ∀ f ∈ e.destinations ∪ e.up_requests ∪ e.down_requests,
        e.current_floor < f := by
      intro f hf
      by_contra hc
      have hle : f ≤ e.current_floor := not_lt.mp hc
      simp only [Finset.mem_union] at hf
      rcases hf with (hf | hf) | hf
      · exact hd (hcd.mpr ⟨f, hf, hle⟩)
      · exact hu (hcu.mpr ⟨f, Finset.mem_union_left _ hf, hle⟩)
      · exact hu (hcu.mpr ⟨f, Finset.mem_union_right _ hf, hle⟩)
    refine ⟨⟨fun hc => absurd hc (by simp), fun hex => ?_⟩, ⟨fun _ => hnex, fun _ => rfl⟩⟩
    obtain ⟨f, hf, hle⟩ := hex
    exact absurd hle (not_le.mpr (hnex f hf))

/-! ### Claim theorems -/

/-- C1: every configuration reachable from the canonical start (floor 1, Idle,
direction NONE, all sets empty) by any finite sequence of legal events
satisfies: at MIN_FLOOR the direction is never DOWN, at MAX_FLOOR it is never
UP, and an Idle configuration has direction NONE with empty destinations,
up-requests and down-requests. -/
theorem reachable_invariants (e : ElevatorData) (h : Reachable e) :
    (e.current_floor = MIN_FLOOR → e.going_direction ≠ .DOWN)
    ∧ (e.current_floor = MAX_FLOOR → e.going_direction ≠ .UP)
    ∧ (e.state = .Idle → e.going_direction = .NONE ∧ e.destinations = ∅
        ∧ e.up_requests = ∅ ∧ e.down_requests = ∅) := by
  obtain ⟨⟨hfl, hmin, hmax, hiff, hdw, hus⟩, hidle, hmov⟩ := reachable_inv e h
  refine ⟨by simpa [MIN_FLOOR] using hmin, by simpa [MAX_FLOOR] using hmax, ?_⟩
  intro hs
  obtain ⟨h1, h2, h3, h4⟩ := hidle hs
  exact ⟨h1, h2, h3, h4⟩

/-- C1 witness: the invariants instantiated at the canonical start itself. -/
theorem reachable_invariants_witness :
    (startElevator.current_floor = MIN_FLOOR → startElevator.going_direction ≠ .DOWN)
    ∧ (startElevator.current_floor = MAX_FLOOR → startElevator.going_direction ≠ .UP)
    ∧ (startElevator.state = .Idle → startElevator.going_direction = .NONE
        ∧ startElevator.destinations = ∅ ∧ startElevator.up_requests = ∅
        ∧ startElevator.down_requests = ∅) :=
  reachable_invariants startElevator Reachable.start

/-- C2: on every reachable configuration the explorer's successor enumeration
is nonempty — whichever way the randomized door-close coin lands — so the
fatal "Deadlock detected" failure is never raised on a reachable
configuration. -/
theorem reachable_no_deadlock (e : ElevatorData) (h : Reachable e) (coin : Bool) :
    next_elevators coin e ≠ [] :=
  next_elevators_ne_nil coin e (reachable_inv e h)

/-- C2 witness: the successor enumeration at the start is nonempty for both
coin outcomes. -/
theorem reachable_no_deadlock_witness :
    next_elevators true startElevator ≠ [] ∧ next_elevators false startElevator ≠ [] :=
  ⟨reachable_no_deadlock startElevator Reachable.start true,
    reachable_no_deadlock startElevator Reachable.start false⟩

/-- C3 counterexample: at interior floor 3, moving UP, with the single pending
destination 3 (the current floor, legally recorded while moving), the
recomputed direction stays UP although no pending floor lies strictly above
the current floor — the code counts floors at or above (`>=`), so the claim's
"strictly above" biconditional fails at this input. -/
theorem moving_up_strictly_above_counterexample :
    (update_direction ⟨.Moving, 3, .UP, {3}, ∅, ∅⟩).going_direction = .UP
    ∧ ∀ f ∈ ({3} : Finset Int) ∪ ∅ ∪ ∅, ¬((3 : Int) < f) := by decide

/-- C3 (amended): for an elevator at an interior floor with at least one
pending destination or request, already moving: the recomputation keeps UP
exactly when some pending floor lies at or above (`>=`) the current floor and
reverses to DOWN exactly when every pending floor is strictly below;
symmetrically for DOWN with at-or-below and strictly-above. -/
theorem moving_direction_scan_rule (e : ElevatorData)
    (hlo : 1 < e.current_floor) (hhi : e.current_floor < 5)
    (hwork : (e.destinations ∪ e.up_requests ∪ e.down_requests).Nonempty) :
    (e.going_direction = .UP →
      ((update_direction e).going_direction = .UP
        ↔ ∃ f ∈ e.destinations ∪ e.up_requests ∪ e.down_requests, e.current_floor ≤ f)
      ∧ ((update_direction e).going_direction = .DOWN
        ↔ ∀ f ∈ e.destinations ∪ e.up_requests ∪ e.down_requests, f < e.current_floor))
    ∧ (e.going_direction = .DOWN →
      ((update_direction e).going_direction = .DOWN
        ↔ ∃ f ∈ e.destinations ∪ e.up_requests ∪ e.down_requests, f ≤ e.current_floor)
      ∧ ((update_direction e).going_direction = .UP
        ↔ ∀ f ∈ e.destinations ∪ e.up_requests ∪ e.down_requests, e.current_floor < f)) := by
  have hne : ¬allEmpty e := by
    obtain ⟨f, hf⟩ := hwork
    rintro ⟨h1, h2, h3⟩
    rw [h1, h2, h3] at hf
    simp at hf
  constructor
  · intro hdir
    simpa using next_direction_moving_up e hdir (by omega) (by omega) hne
  · intro hdir
    simpa using next_direction_moving_down e hdir (by omega) (by omega) hne

/-- C3 witness: moving UP at floor 3 with pending destination 4, a floor at or
above the current one, the recomputation keeps UP. -/
theorem moving_direction_scan_rule_witness :
    (update_direction ⟨.Moving, 3, .UP, {4}, ∅, ∅⟩).going_direction = .UP :=
  ((moving_direction_scan_rule ⟨.Moving, 3, .UP, {4}, ∅, ∅⟩ (by decide) (by decide)
    ⟨4, by decide⟩).1 rfl).1.mpr ⟨4, by decide, by decide⟩

/-- C4: the direction recomputation follows the precedence: all three sets
empty gives NONE; otherwise the bottom floor forces UP and the top floor
forces DOWN; otherwise, starting from direction NONE, the considered floor set
is the destinations when nonempty, else the union of the request sets, and the
result is UP exactly when more than half of that set lies at or above the
current floor, else DOWN. -/
theorem direction_selection_precedence (e : ElevatorData) :
    (allEmpty e → (update_direction e).going_direction = .NONE)
    ∧ (¬allEmpty e → e.current_floor = MIN_FLOOR →
        (update_direction e).going_direction = .UP)
    ∧ (¬allEmpty e → e.current_floor = MAX_FLOOR →
        (update_direction e).going_direction = .DOWN)
    ∧ (¬allEmpty e → e.current_floor ≠ MIN_FLOOR → e.current_floor ≠ MAX_FLOOR →
        e.going_direction = .NONE →
        (update_direction e).going_direction =
          (if 2 * count_higher_floors e.current_floor
                (if e.destinations ≠ ∅ then e.destinations
                  else e.up_requests ∪ e.down_requests)
              > (if e.destinations ≠ ∅ then e.destinations
                  else e.up_requests ∪ e.down_requests).card
            then Direction.UP else .DOWN)) := by
  refine ⟨?_, ?_, ?_, ?_⟩
  · intro ha
    simp only [update_direction_going_direction]
    exact (next_direction_eq_none_iff e).mpr ha
  · intro hne hm
    simp only [update_direction_going_direction]
    unfold next_direction
    rw [if_neg hne, if_pos hm]
  · intro hne hm
    have hm1 : e.current_floor ≠ MIN_FLOOR := by rw [hm]; decide
    simp only [update_direction_going_direction]
    unfold next_direction
    rw [if_neg hne, if_neg hm1, if_pos hm]
  · intro hne h1 h5 hdn
    simp only [update_direction_going_direction]
    unfold next_direction
    rw [if_neg hne, if_neg h1, if_neg h5, if_pos hdn]
    by_cases hd : e.destinations ≠ ∅
    · rw [if_pos hd, if_pos hd]
      exact get_direction_majority e.current_floor e.destinations
    · rw [if_neg hd, if_neg hd]
      exact get_direction_majority e.current_floor (e.up_requests ∪ e.down_requests)

/-- C4 witness: the empty-sets branch at floor 3 and the NONE-direction
majority branch at floor 2 with the single destination 4. -/
theorem direction_selection_precedence_witness :
    (update_direction ⟨.Idle, 3, .NONE, ∅, ∅, ∅⟩).going_direction = .NONE
    ∧ (update_direction ⟨.Idle, 2, .NONE, {4}, ∅, ∅⟩).going_direction
        = (if 2 * count_higher_floors 2
              (if ({4} : Finset Int) ≠ ∅ then ({4} : Finset Int) else ∅ ∪ ∅)
            > (if ({4} : Finset Int) ≠ ∅ then ({4} : Finset Int) else ∅ ∪ ∅).card
          then Direction.UP else .DOWN) :=
  ⟨(direction_selection_precedence ⟨.Idle, 3, .NONE, ∅, ∅, ∅⟩).1 (by decide),
    (direction_selection_precedence ⟨.Idle, 2, .NONE, {4}, ∅, ∅⟩).2.2.2
      (by decide) (by decide) (by decide) rfl⟩

/-- C5: the explorer's Loading-node TimerExpired branch is gated by a random
coin (`do_it()`), not applied unconditionally.  From the reachable Loading
configuration at floor 1 (obtained from the start by selecting destination 1),
the TimerExpired successor — the start configuration — is enumerated when the
coin lands 0 (`coin = true`) but omitted entirely when it lands 1
(`coin = false`), where every enumerated successor is still Loading. -/
theorem loading_timer_branch_random_omission :
    Reachable ⟨.Loading, 1, .NONE, ∅, ∅, ∅⟩
    ∧ startElevator ∈ next_elevators true ⟨.Loading, 1, .NONE, ∅, ∅, ∅⟩
    ∧ startElevator ∉ next_elevators false ⟨.Loading, 1, .NONE, ∅, ∅, ∅⟩
    ∧ ∀ x ∈ next_elevators false (⟨.Loading, 1, .NONE, ∅, ∅, ∅⟩ : ElevatorData),
        x.state = .Loading :=
  ⟨Reachable.step Reachable.start (by decide), by decide, by decide, by decide⟩

/-- C6 counterexample: in the reachable start configuration — Idle at the
bottom floor — the boundary event `RequestButtonPressed(1, DOWN)` is not
rejected: the Idle handler short-circuits on the current floor and opens the
door, before `receive_request` and its boundary assertions are ever reached. -/
theorem boundary_request_idle_counterexample :
    Reachable startElevator
    ∧ handle_event startElevator (.RequestButtonPressed 1 .DOWN)
        = some (⟨.Loading, 1, .NONE, ∅, ∅, ∅⟩, [.SetTimer]) :=
  ⟨Reachable.start, by decide⟩

/-- C6 (amended): `RequestButtonPressed(1, DOWN)` and
`RequestButtonPressed(5, UP)` fail as illegal requests in Moving and Loading
always, and in Idle whenever the request floor differs from the current floor;
in a reachable Idle configuration at that very floor the event is instead
accepted and merely opens the door, recording nothing — so no reachable
configuration has MIN_FLOOR in down_requests or MAX_FLOOR in up_requests. -/
theorem boundary_request_rejection (e : ElevatorData) :
    (e.state = .Moving ∨ e.state = .Loading →
      handle_event e (.RequestButtonPressed 1 .DOWN) = none
      ∧ handle_event e (.RequestButtonPressed 5 .UP) = none)
    ∧ (e.state = .Idle → e.current_floor ≠ 1 →
        handle_event e (.RequestButtonPressed 1 .DOWN) = none)
    ∧ (e.state = .Idle → e.current_floor ≠ 5 →
        handle_event e (.RequestButtonPressed 5 .UP) = none)
    ∧ (Reachable e → e.state = .Idle → e.current_floor = 1 →
        handle_event e (.RequestButtonPressed 1 .DOWN)
          = some ({ e with state := .Loading }, [.SetTimer]))
    ∧ (Reachable e → e.state = .Idle → e.current_floor = 5 →
        handle_event e (.RequestButtonPressed 5 .UP)
          = some ({ e with state := .Loading }, [.SetTimer]))
    ∧ (Reachable e → (1 : Int) ∉ e.down_requests ∧ (5 : Int) ∉ e.up_requests) := by
  refine ⟨?_, ?_, ?_, ?_, ?_, ?_⟩
  · intro hs
    obtain ⟨st, cur, dir, ds, us, dw⟩ := e
    dsimp only at hs
    rcases hs with rfl | rfl <;>
      exact ⟨by simp [handle_event, state_handle_event, receive_request,
          MIN_FLOOR, MAX_FLOOR],
        by simp [handle_event, state_handle_event, receive_request,
          MIN_FLOOR, MAX_FLOOR]⟩
  · intro hs hc
    obtain ⟨st, cur, dir, ds, us, dw⟩ := e
    dsimp only at hs hc
    subst hs
    simp [handle_event, state_handle_event, receive_request, MIN_FLOOR, MAX_FLOOR,
      Ne.symm hc]
  · intro hs hc
    obtain ⟨st, cur, dir, ds, us, dw⟩ := e
    dsimp only at hs hc
    subst hs
    simp [handle_event, state_handle_event, receive_request, MIN_FLOOR, MAX_FLOOR,
      Ne.symm hc]
  · intro hr hs hc
    obtain ⟨-, hidle, -⟩ := reachable_inv e hr
    obtain ⟨hdir, hds, -, -⟩ := hidle hs
    have hse : state_handle_event e (.RequestButtonPressed 1 .DOWN)
        = some ({ e with state := .Loading }, [.SetTimer]) := by
      unfold state_handle_event
      rw [hs]
      dsimp only
      rw [if_pos ⟨hds, hdir⟩, if_pos hc.symm]
    unfold handle_event
    rw [hse]
    rfl
  · intro hr hs hc
    obtain ⟨-, hidle, -⟩ := reachable_inv e hr
    obtain ⟨hdir, hds, -, -⟩ := hidle hs
    have hse : state_handle_event e (.RequestButtonPressed 5 .UP)
        = some ({ e with state := .Loading }, [.SetTimer]) := by
      unfold state_handle_event
      rw [hs]
      dsimp only
      rw [if_pos ⟨hds, hdir⟩, if_pos hc.symm]
    unfold handle_event
    rw [hse]
    rfl
  · intro hr
    have hInv := reachable_inv e hr
    exact ⟨hInv.1.2.2.2.2.1, hInv.1.2.2.2.2.2⟩

/-- C6 witness: the boundary requests fail in a Moving configuration; at the
reachable start (Idle, floor 1) the DOWN boundary request is accepted and
opens the door, and at the reachable Idle configuration on floor 5 — reached
by selecting destination 5, riding the car up and letting the door timer
expire — the UP boundary request is likewise accepted; the start configuration
records no boundary pickups. -/
theorem boundary_request_rejection_witness :
    handle_event (⟨.Moving, 2, .UP, {3}, ∅, ∅⟩ : ElevatorData)
        (.RequestButtonPressed 1 .DOWN) = none
    ∧ handle_event (⟨.Moving, 2, .UP, {3}, ∅, ∅⟩ : ElevatorData)
        (.RequestButtonPressed 5 .UP) = none
    ∧ handle_event startElevator (.RequestButtonPressed 1 .DOWN)
        = some ({ startElevator with state := .Loading }, [.SetTimer])
    ∧ handle_event (⟨.Idle, 5, .NONE, ∅, ∅, ∅⟩ : ElevatorData)
        (.RequestButtonPressed 5 .UP)
        = some ({ (⟨.Idle, 5, .NONE, ∅, ∅, ∅⟩ : ElevatorData) with state := .Loading },
            [.SetTimer])
    ∧ (1 : Int) ∉ startElevator.down_requests ∧ (5 : Int) ∉ startElevator.up_requests := by
  have r1 : Reachable ⟨.Moving, 1, .UP, {5}, ∅, ∅⟩ :=
    Reachable.step Reachable.start (by decide)
  have r2 : Reachable ⟨.Moving, 2, .UP, {5}, ∅, ∅⟩ := Reachable.step r1 (by decide)
  have r3 : Reachable ⟨.Moving, 3, .UP, {5}, ∅, ∅⟩ := Reachable.step r2 (by decide)
  have r4 : Reachable ⟨.Moving, 4, .UP, {5}, ∅, ∅⟩ := Reachable.step r3 (by decide)
  have r5 : Reachable ⟨.Loading, 5, .NONE, ∅, ∅, ∅⟩ := Reachable.step r4 (by decide)
  have r6 : Reachable ⟨.Idle, 5, .NONE, ∅, ∅, ∅⟩ := Reachable.step r5 (by decide)
  exact ⟨((boundary_request_rejection ⟨.Moving, 2, .UP, {3}, ∅, ∅⟩).1 (Or.inl rfl)).1,
    ((boundary_request_rejection ⟨.Moving, 2, .UP, {3}, ∅, ∅⟩).1 (Or.inl rfl)).2,
    (boundary_request_rejection startElevator).2.2.2.1 Reachable.start rfl rfl,
    (boundary_request_rejection ⟨.Idle, 5, .NONE, ∅, ∅, ∅⟩).2.2.2.2.1 r6 rfl rfl,
    ((boundary_request_rejection startElevator).2.2.2.2.2 Reachable.start).1,
    ((boundary_request_rejection startElevator).2.2.2.2.2 Reachable.start).2⟩

/-- C7 counterexample: `DestinationFloorSelected(7)` — floor 7 is outside
[MIN_FLOOR, MAX_FLOOR] — handled at the start configuration does not fail: the
out-of-range floor is recorded in destinations and the elevator starts
moving. -/
theorem out_of_range_destination_counterexample :
    handle_event startElevator (.DestinationFloorSelected 7)
      = some (⟨.Moving, 1, .UP, {7}, ∅, ∅⟩, [.HoistMotor .UP]) := by decide

/-- C7 (amended): only the position sensor path is range-checked: reach_floor
(and the handling of a ReachedFloor event in every state) fails on a floor
outside [MIN_FLOOR, MAX_FLOOR], but DestinationFloorSelected is not
range-checked — in Moving the floor, whatever its value, is recorded in
destinations and acted on. -/
theorem floor_range_validation (e : ElevatorData) (f : Int) :
    (¬(MIN_FLOOR ≤ f ∧ f ≤ MAX_FLOOR) →
      reach_floor e f = none ∧ handle_event e (.ReachedFloor f) = none)
    ∧ (e.state = .Moving →
      handle_event e (.DestinationFloorSelected f)
        = some ({ receive_destination e f with state := .Moving },
            [.HoistMotor (receive_destination e f).going_direction])
      ∧ f ∈ (receive_destination e f).destinations) := by
  constructor
  · intro hn
    have hrf : reach_floor e f = none := by
      unfold reach_floor
      rw [if_neg hn]
    refine ⟨hrf, ?_⟩
    obtain ⟨st, cur, dir, ds, us, dw⟩ := e
    cases st <;> simp_all [handle_event, state_handle_event]
  · intro hs
    have hne : (receive_destination e f).going_direction ≠ .NONE := by
      simp only [receive_destination, update_direction_going_direction]
      exact next_direction_ne_none _ (by simp [allEmpty])
    refine ⟨?_, by simp [receive_destination]⟩
    obtain ⟨st, cur, dir, ds, us, dw⟩ := e
    dsimp only at hs
    subst hs
    simp [handle_event, state_handle_event, control_output_ok, hne]

/-- C7 witness: at a Moving configuration, ReachedFloor(7) fails while
DestinationFloorSelected(9) is recorded. -/
theorem floor_range_validation_witness :
    (reach_floor ⟨.Moving, 3, .UP, ∅, {4}, ∅⟩ 7 = none
      ∧ handle_event ⟨.Moving, 3, .UP, ∅, {4}, ∅⟩ (.ReachedFloor 7) = none)
    ∧ (handle_event ⟨.Moving, 3, .UP, ∅, {4}, ∅⟩ (.DestinationFloorSelected 9)
        = some ({ receive_destination ⟨.Moving, 3, .UP, ∅, {4}, ∅⟩ 9 with state := .Moving },
            [.HoistMotor (receive_destination ⟨.Moving, 3, .UP, ∅, {4}, ∅⟩ 9).going_direction])
      ∧ (9 : Int) ∈ (receive_destination ⟨.Moving, 3, .UP, ∅, {4}, ∅⟩ 9).destinations) :=
  ⟨(floor_range_validation ⟨.Moving, 3, .UP, ∅, {4}, ∅⟩ 7).1 (by decide),
    (floor_range_validation ⟨.Moving, 3, .UP, ∅, {4}, ∅⟩ 9).2 rfl⟩

/-- C8: handling TimerExpired in state Loading always succeeds and yields
either Moving with outputs exactly [DoorMotor(CLOSE), HoistMotor(dir)] — when
the direction recomputed by close_door is not NONE — or Idle with outputs
exactly [DoorMotor(CLOSE)] when it is NONE; the next state is never
Loading. -/
theorem loading_timer_expired_transitions (e : ElevatorData) (hs : e.state = .Loading) :
    ((update_direction e).going_direction ≠ .NONE →
      handle_event e .TimerExpired
        = some ({ update_direction e with state := .Moving },
            [.DoorMotor .CLOSE, .HoistMotor (update_direction e).going_direction]))
    ∧ ((update_direction e).going_direction = .NONE →
      handle_event e .TimerExpired
        = some ({ update_direction e with state := .Idle }, [.DoorMotor .CLOSE]))
    ∧ (∀ e1 out, handle_event e .TimerExpired = some (e1, out) → e1.state ≠ .Loading) := by
  obtain ⟨st, cur, dir, ds, us, dw⟩ := e
  dsimp only at hs
  subst hs
  have hA : (update_direction (⟨.Loading, cur, dir, ds, us, dw⟩ : ElevatorData)).going_direction ≠ .NONE →
      handle_event ⟨.Loading, cur, dir, ds, us, dw⟩ .TimerExpired
        = some ({ update_direction (⟨.Loading, cur, dir, ds, us, dw⟩ : ElevatorData) with state := .Moving },
            [.DoorMotor .CLOSE,
              .HoistMotor (update_direction (⟨.Loading, cur, dir, ds, us, dw⟩ : ElevatorData)).going_direction]) := by
    intro hne
    simp only [update_direction_going_direction] at hne
    simp [handle_event, state_handle_event, close_door, control_output_ok, hne]
  have hB : (update_direction (⟨.Loading, cur, dir, ds, us, dw⟩ : ElevatorData)).going_direction = .NONE →
      handle_event ⟨.Loading, cur, dir, ds, us, dw⟩ .TimerExpired
        = some ({ update_direction (⟨.Loading, cur, dir, ds, us, dw⟩ : ElevatorData) with state := .Idle },
            [.DoorMotor .CLOSE]) := by
    intro heq
    simp only [update_direction_going_direction] at heq
    simp [handle_event, state_handle_event, close_door, control_output_ok, heq]
  refine ⟨hA, hB, ?_⟩
  intro e1 out h
  by_cases hd : (update_direction (⟨.Loading, cur, dir, ds, us, dw⟩ : ElevatorData)).going_direction = .NONE
  · rw [hB hd] at h
    simp only [Option.some_inj, Prod.mk.injEq] at h
    obtain ⟨rfl, -⟩ := h
    simp
  · rw [hA hd] at h
    simp only [Option.some_inj, Prod.mk.injEq] at h
    obtain ⟨rfl, -⟩ := h
    simp

/-- C8 witness: from the Loading configuration at floor 1 with no pending
work, TimerExpired closes the door and returns to Idle. -/
theorem loading_timer_expired_transitions_witness :
    handle_event ⟨.Loading, 1, .NONE, ∅, ∅, ∅⟩ .TimerExpired
      = some ({ update_direction ⟨.Loading, 1, .NONE, ∅, ∅, ∅⟩ with state := .Idle },
          [.DoorMotor .CLOSE]) :=
  (loading_timer_expired_transitions ⟨.Loading, 1, .NONE, ∅, ∅, ∅⟩ rfl).2.1 (by decide)

/-- C9 counterexample: at floor 5 moving UP, `reach_floor 6` satisfies the
claim's stated requirements — the target is one floor away and the direction
is not NONE — yet the call fails, because the code additionally asserts the
floor range, which the claim omits. -/
theorem reach_floor_out_of_range_counterexample :
    ((5 : Int) - 6).natAbs = 1
    ∧ (⟨.Moving, 5, .UP, ∅, ∅, ∅⟩ : ElevatorData).going_direction ≠ .NONE
    ∧ reach_floor ⟨.Moving, 5, .UP, ∅, ∅, ∅⟩ 6 = none := by decide

/-- C9 (amended): reach_floor requires |floor − current_floor| = 1, a non-NONE
direction, and additionally MIN_FLOOR ≤ floor ≤ MAX_FLOOR, failing otherwise;
on success it sets current_floor to the floor, erases the floor from
destinations if present, erases it from up_requests only when travelling UP
and from down_requests only when travelling DOWN, recomputes the direction,
and reports a door opening exactly when at least one removal was due. -/
theorem reach_floor_spec (e : ElevatorData) (f : Int) :
    (¬(MIN_FLOOR ≤ f ∧ f ≤ MAX_FLOOR ∧ e.going_direction ≠ .NONE
        ∧ (e.current_floor - f).natAbs = 1) → reach_floor e f = none)
    ∧ (MIN_FLOOR ≤ f → f ≤ MAX_FLOOR → e.going_direction ≠ .NONE →
        (e.current_floor - f).natAbs = 1 →
        reach_floor e f
          = some (update_direction
              { e with
                current_floor := f
                destinations := e.destinations.erase f
                up_requests :=
                  if e.going_direction = .UP then e.up_requests.erase f else e.up_requests
                down_requests :=
                  if e.going_direction = .DOWN then e.down_requests.erase f
                  else e.down_requests },
              decide (f ∈ e.destinations ∨ (f ∈ e.up_requests ∧ e.going_direction = .UP)
                ∨ (f ∈ e.down_requests ∧ e.going_direction = .DOWN)))) := by
  constructor
  · intro hn
    unfold reach_floor
    split_ifs with h1 h2 h3 <;>
      first
        | rfl
        | exact absurd ⟨h1.1, h1.2, h2, h3⟩ hn
  · intro hf1 hf2 hdir hstep
    unfold reach_floor
    rw [if_pos ⟨hf1, hf2⟩, if_pos hdir, if_pos hstep]
    simp [Bool.decide_or, Bool.decide_and, Bool.or_assoc]

/-- C9 witness: moving UP from floor 2 to floor 3 with destination 3 and a
down-request at 3: the drop-off is erased, the direction-inconsistent pickup
is kept, and the door opens. -/
theorem reach_floor_spec_witness :
    reach_floor ⟨.Moving, 2, .UP, {3}, ∅, {3}⟩ 0 = none
    ∧ reach_floor ⟨.Moving, 2, .UP, {3}, ∅, {3}⟩ 3
      = some (update_direction
          { (⟨.Moving, 2, .UP, {3}, ∅, {3}⟩ : ElevatorData) with
            current_floor := 3
            destinations := (⟨.Moving, 2, .UP, {3}, ∅, {3}⟩ : ElevatorData).destinations.erase 3
            up_requests :=
              if (⟨.Moving, 2, .UP, {3}, ∅, {3}⟩ : ElevatorData).going_direction = .UP then
                (⟨.Moving, 2, .UP, {3}, ∅, {3}⟩ : ElevatorData).up_requests.erase 3
              else (⟨.Moving, 2, .UP, {3}, ∅, {3}⟩ : ElevatorData).up_requests
            down_requests :=
              if (⟨.Moving, 2, .UP, {3}, ∅, {3}⟩ : ElevatorData).going_direction = .DOWN then
                (⟨.Moving, 2, .UP, {3}, ∅, {3}⟩ : ElevatorData).down_requests.erase 3
              else (⟨.Moving, 2, .UP, {3}, ∅, {3}⟩ : ElevatorData).down_requests },
          decide ((3 : Int) ∈ (⟨.Moving, 2, .UP, {3}, ∅, {3}⟩ : ElevatorData).destinations
            ∨ ((3 : Int) ∈ (⟨.Moving, 2, .UP, {3}, ∅, {3}⟩ : ElevatorData).up_requests
                ∧ (⟨.Moving, 2, .UP, {3}, ∅, {3}⟩ : ElevatorData).going_direction = .UP)
            ∨ ((3 : Int) ∈ (⟨.Moving, 2, .UP, {3}, ∅, {3}⟩ : ElevatorData).down_requests
                ∧ (⟨.Moving, 2, .UP, {3}, ∅, {3}⟩ : ElevatorData).going_direction = .DOWN))) :=
  ⟨(reach_floor_spec ⟨.Moving, 2, .UP, {3}, ∅, {3}⟩ 0).1 (by decide),
    (reach_floor_spec ⟨.Moving, 2, .UP, {3}, ∅, {3}⟩ 3).2
      (by decide) (by decide) (by decide) (by decide)⟩

/-- C10: receive_request adds the floor to up_requests exactly when the
direction is UP and to down_requests for every other direction value — DOWN
and NONE alike; in particular `RequestButtonPressed(1, NONE)` passes both
boundary assertions and records floor 1, the bottom floor, in
down_requests. -/
theorem receive_request_direction_dispatch (e : ElevatorData) :
    (∀ f : Int, f ≠ 5 →
      receive_request e f .UP
        = some (update_direction { e with up_requests := insert f e.up_requests }))
    ∧ (∀ f : Int, f ≠ 1 →
      receive_request e f .DOWN
        = some (update_direction { e with down_requests := insert f e.down_requests }))
    ∧ (∀ (f : Int) (d : Direction), d ≠ .UP → ¬(f = 1 ∧ d = .DOWN) →
      receive_request e f d
        = some (update_direction { e with down_requests := insert f e.down_requests }))
    ∧ receive_request e 1 .NONE
        = some (update_direction { e with down_requests := insert 1 e.down_requests })
    ∧ (∀ e1, receive_request e 1 .NONE = some e1 → (1 : Int) ∈ e1.down_requests) := by
  have hdown : ∀ (f : Int) (d : Direction), d ≠ .UP → ¬(f = 1 ∧ d = .DOWN) →
      receive_request e f d
        = some (update_direction { e with down_requests := insert f e.down_requests }) := by
    intro f d hdu hg
    unfold receive_request
    rw [if_neg (by simpa [MIN_FLOOR] using hg),
      if_neg (by rintro ⟨-, hc⟩; exact hdu hc), if_neg hdu]
  have hup : ∀ f : Int, f ≠ 5 →
      receive_request e f .UP
        = some (update_direction { e with up_requests := insert f e.up_requests }) := by
    intro f hf
    unfold receive_request
    rw [if_neg (by simp), if_neg (by simp [MAX_FLOOR, hf]), if_pos rfl]
  refine ⟨hup, fun f hf => hdown f .DOWN (by simp) (by rintro ⟨hc, -⟩; exact hf hc),
    hdown, hdown 1 .NONE (by simp) (by simp), ?_⟩
  intro e1 h
  rw [hdown 1 .NONE (by simp) (by simp)] at h
  obtain rfl := Option.some_inj.mp h
  simp

/-- C10 witness: at the start configuration, a NONE-direction request at
floor 1 is accepted and records the bottom floor in down_requests. -/
theorem receive_request_direction_dispatch_witness :
    receive_request startElevator 2 .UP
      = some (update_direction { startElevator with up_requests := insert 2 startElevator.up_requests })
    ∧ receive_request startElevator 1 .NONE
      = some (update_direction { startElevator with down_requests := insert 1 startElevator.down_requests })
    ∧ (1 : Int) ∈ (update_direction
        { startElevator with down_requests := insert 1 startElevator.down_requests }).down_requests :=
  ⟨(receive_request_direction_dispatch startElevator).1 2 (by decide),
    (receive_request_direction_dispatch startElevator).2.2.2.1,
    (receive_request_direction_dispatch startElevator).2.2.2.2 _
      (receive_request_direction_dispatch startElevator).2.2.2.1⟩
